import Mathlib

/-!
Verification development for the breadx repository.

This file shallowly embeds the two provided source files:
  src/render/tesselate.rs  (polygon-to-trapezoid sweep engine), and
  src/display/output.rs    (extension-opcode key derivation, str_to_key),
and proves or refutes the frozen claims about them.

Modelling conventions:
  * The Rust type Fixed (an i32 holding a 16.16 fixed-point number) is
    modelled as the unbounded integer type Int.  All concrete inputs used
    in the theorems below stay far away from the i32 range, where i32
    arithmetic and Int arithmetic agree, so overflow wrapping is not
    modelled.
  * The f64 computations of the source (inverse_slope, x_intercept,
    compute_x, compute_intersect) are modelled over the rationals, with
    the two f64-to-integer conversions made explicit: the Rust cast
    expression (x as Fixed) truncates toward zero (ratTrunc below) and
    double_to_fixed rounds (see its own comment).  On every concrete
    input appearing in a theorem of this file, each intermediate f64
    value of the source is a dyadic rational that f64 represents exactly
    and each f64 operation is exact (small integers, divisions with
    dyadic results), so the rational model and the f64 code agree there.
  * Rust Vec operations are modelled on List.  The source keeps the
    inactive edge vector sorted ascending by (y1, x1) and then reversed,
    so that the next edge to activate is popped from the tail; the model
    stores the same sequence in ascending order and pops from the head
    (model head = Rust tail).
  * The source sorts with sort_unstable_by, whose order on elements that
    compare equal is unspecified; the model uses a stable insertion sort
    with the same comparison.  Both agree whenever no two elements
    compare equal, which holds in every concrete run in this file.
  * Rust panics (the .expect in populate_queue, the out-of-bounds slice
    in str_to_key) are modelled by Option, with none meaning panic.
-/

namespace Breadx

/-- Modelled from the spec: the protocol type Fixed, declared in the
generated module crate::auto::render outside the provided sources, is a
32-bit fixed-point number with 16 fractional bits, stored in an i32.
Modelled as Int (see the file comment). -/
abbrev Fixed := Int

/-- Modelled from the spec: crate::auto::render::Pointfix, an immutable
pair of fixed-point coordinates. -/
structure Pointfix where
  x : Fixed
  y : Fixed
deriving DecidableEq, Repr

/-- Modelled from the spec: crate::auto::render::Linefix, a line segment
given by its two defining endpoints. -/
structure Linefix where
  p1 : Pointfix
  p2 : Pointfix
deriving DecidableEq, Repr

/-- Modelled from the spec: crate::auto::render::Trapezoid, the output
unit: two fixed-point vertical bounds and the two full side segments. -/
structure Trapezoid where
  top : Fixed
  bottom : Fixed
  left : Linefix
  right : Linefix
deriving DecidableEq, Repr

/-- Modelled from the spec: fixed_to_double(f) returns f / 65536.0
(declared in the parent render module, outside the provided sources). -/
def fixed_to_double (f : Fixed) : ℚ := (f : ℚ) / 65536

/-- Modelled from the spec: double_to_fixed(d) returns round(d * 65536.0)
truncated/rounded to the fixed-point representation (declared in the
parent render module, outside the provided sources).  Modelled with
round; every use below lands on an exact integer, where rounding and
truncation coincide. -/
def double_to_fixed (d : ℚ) : Fixed := round (d * 65536)

/-- Truncation toward zero: the semantics of the Rust cast (x as Fixed)
from f64, ignoring the saturation at the i32 bounds (never reached on
the inputs of this file). -/
def ratTrunc (q : ℚ) : ℤ := if 0 ≤ q then ⌊q⌋ else -⌊-q⌋

/-- src/render/tesselate.rs, struct Edge: an edge between two points,
with the y1 ≤ y2 normalization invariant established by from_points and
the mutable current_x scratch field. -/
structure Edge where
  x1 : Fixed
  y1 : Fixed
  x2 : Fixed
  y2 : Fixed
  current_x : Fixed
deriving DecidableEq, Repr

/-- src/render/tesselate.rs, Edge::from_points: order the two endpoints
so that the first has the smaller y; current_x starts at 0. -/
def Edge.from_points (p1 p2 : Pointfix) : Edge :=
  if p1.y < p2.y then
    { x1 := p1.x, y1 := p1.y, x2 := p2.x, y2 := p2.y, current_x := 0 }
  else
    { x1 := p2.x, y1 := p2.y, x2 := p1.x, y2 := p1.y, current_x := 0 }

/-- src/render/tesselate.rs, Edge::inverse_slope:
fixed_to_double(x2 - x1) / fixed_to_double(y2 - y1). -/
def Edge.inverse_slope (e : Edge) : ℚ :=
  fixed_to_double (e.x2 - e.x1) / fixed_to_double (e.y2 - e.y1)

/-- src/render/tesselate.rs, Edge::x_intercept:
fixed_to_double(x1) - inverse_slope * fixed_to_double(y1). -/
def Edge.x_intercept (e : Edge) : ℚ :=
  fixed_to_double e.x1 - e.inverse_slope * fixed_to_double e.y1

/-- src/render/tesselate.rs, Edge::compute_x: recompute current_x at
scan position y as x1 + ((y - y1) * (x2 - x1) / (y2 - y1) as Fixed),
the division done in f64 and truncated by the cast. -/
def Edge.compute_x (e : Edge) (y : Fixed) : Edge :=
  { e with current_x :=
      e.x1 + ratTrunc ((((y - e.y1) * (e.x2 - e.x1) : ℤ) : ℚ) / ((e.y2 - e.y1 : ℤ) : ℚ)) }

/-- src/render/tesselate.rs, Edge::compute_intersect:
double_to_fixed((b2 - b1) / (m2 - m1)) where m, b are the inverse slope
and x-intercept of self (1) and other (2).  Note the sign of the
denominator as written in the source. -/
def Edge.compute_intersect (e other : Edge) : Fixed :=
  double_to_fixed ((other.x_intercept - e.x_intercept) / (other.inverse_slope - e.inverse_slope))

/-- The x-coordinate (in double space) of the line through an edge at a
given y (in double space): the line x = inverse_slope * y + x_intercept
that compute_intersect reasons about. -/
def Edge.lineX (e : Edge) (yd : ℚ) : ℚ := e.inverse_slope * yd + e.x_intercept

/-- src/render/tesselate.rs, PointsToEdges::next, run to exhaustion:
the loop body threads the remembered first and most recent points. -/
def pointsToEdgesAux : List Pointfix → Option Pointfix → Option Pointfix → List Edge
  | [], first, last =>
      match first, last with
      | some f, some l => if f = l then [] else [Edge.from_points l f]
      | _, _ => []
  | pt :: rest, first, last =>
      match last with
      | none => pointsToEdgesAux rest (some pt) (some pt)
      | some l => Edge.from_points l pt :: pointsToEdgesAux rest first (some pt)

/-- src/render/tesselate.rs, the full edge sequence produced by the
PointsToEdges iterator for a finite point sequence. -/
def pointsToEdges (pts : List Pointfix) : List Edge :=
  pointsToEdgesAux pts none none

/-- src/render/tesselate.rs, struct Trapezoids: the sweep engine state.
Field order follows the source; inactive is stored with the next edge to
activate at the head (see the file comment on orientation). -/
structure Trapezoids where
  active : List Edge
  inactive : List Edge
  y : Fixed
  queue : List Trapezoid
deriving DecidableEq, Repr

/-- The comparison used to sort the active list: by current_x, ties by
x2 (src/render/tesselate.rs, the sort_unstable_by in populate_queue). -/
def edgeLeCX (e f : Edge) : Bool :=
  e.current_x < f.current_x || (e.current_x = f.current_x && e.x2 ≤ f.x2)

/-- Stable insertion step for the active-list sort. -/
def insertByCX (e : Edge) : List Edge → List Edge
  | [] => [e]
  | f :: rest => if edgeLeCX e f then e :: f :: rest else f :: insertByCX e rest

/-- Stable insertion sort of the active list by (current_x, x2). -/
def sortByCX (l : List Edge) : List Edge := l.foldr insertByCX []

/-- The comparison used to sort the edge set at initialization: by y1,
ties by x1 (src/render/tesselate.rs, edges_to_trapezoids). -/
def edgeLeInit (e f : Edge) : Bool :=
  e.y1 < f.y1 || (e.y1 = f.y1 && e.x1 ≤ f.x1)

/-- Stable insertion step for the initialization sort. -/
def insertByInit (e : Edge) : List Edge → List Edge
  | [] => [e]
  | f :: rest => if edgeLeInit e f then e :: f :: rest else f :: insertByInit e rest

/-- Stable insertion sort of the initial edge set by (y1, x1). -/
def sortByInit (l : List Edge) : List Edge := l.foldr insertByInit []

/-- The intersection candidates contributed by adjacent pairs of active
edges (src/render/tesselate.rs, the windows(2) filter_map in
populate_queue): for each adjacent pair with es0.x2 > es1.x2,
the value es0.compute_intersect(es1) + 1. -/
def intersectCands : List Edge → List Fixed
  | e1 :: e2 :: rest =>
      (if e2.x2 < e1.x2 then [e1.compute_intersect e2 + 1] else []) ++ intersectCands (e2 :: rest)
  | _ => []

/-- The trapezoids emitted for one scan interval
(src/render/tesselate.rs, the chunks_exact(2) map in populate_queue):
consecutive disjoint pairs of the sorted active list; a trailing
unpaired edge is dropped. -/
def emitTraps (y ny : Fixed) : List Edge → List Trapezoid
  | e1 :: e2 :: rest =>
      { top := y, bottom := ny,
        left := { p1 := { x := e1.x1, y := e1.y1 }, p2 := { x := e1.x2, y := e1.y2 } },
        right := { p1 := { x := e2.x1, y := e2.y1 }, p2 := { x := e2.x2, y := e2.y2 } } }
        :: emitTraps y ny rest
  | _ => []

/-- The result of one cycle of Trapezoids::populate_queue, not yet
merged into the state: the returned flag, the new active and inactive
lists, the new scan position and the trapezoids appended to the queue. -/
structure StepOut where
  cont : Bool
  active : List Edge
  inactive : List Edge
  y : Fixed
  emitted : List Trapezoid
deriving DecidableEq, Repr

/-- src/render/tesselate.rs, Trapezoids::populate_queue, acting on the
three non-queue fields (the queue is only appended to, see
populate_queue below).  Returns none when the .expect on the empty
candidate minimum would panic. -/
def stepCore (active inactive : List Edge) (y : Fixed) : Option StepOut :=
  if active.isEmpty && inactive.isEmpty then
    some { cont := false, active := active, inactive := inactive, y := y, emitted := [] }
  else
    let moved := inactive.takeWhile (fun e => decide (e.y1 ≤ y))
    let inact := inactive.dropWhile (fun e => decide (e.y1 ≤ y))
    let act := sortByCX ((active ++ moved).map (fun e => e.compute_x y))
    let cands := act.map (fun e => e.y2) ++ intersectCands act
      ++ (inact.head?.map (fun e => e.y1)).toList
    match cands.min? with
    | none => none
    | some ny =>
        some { cont := true,
               active := act.filter (fun e => decide (ny < e.y2)),
               inactive := inact,
               y := ny,
               emitted := emitTraps y ny act }

/-- src/render/tesselate.rs, Trapezoids::populate_queue: run one cycle
and append the generated trapezoids to the queue. -/
def populate_queue (s : Trapezoids) : Option (Bool × Trapezoids) :=
  match stepCore s.active s.inactive s.y with
  | none => none
  | some o => some (o.cont, { active := o.active, inactive := o.inactive, y := o.y,
                              queue := s.queue ++ o.emitted })

/-- src/render/tesselate.rs, edges_to_trapezoids: collect the edges,
sort by (y1, x1) (the source then reverses and pops from the tail; the
model keeps the ascending list and pops from the head), and start the
scan at the smallest y1, or with everything empty if there are no
edges. -/
def edges_to_trapezoids (edges : List Edge) : Trapezoids :=
  match sortByInit edges with
  | [] => { active := [], inactive := [], y := 0, queue := [] }
  | e :: rest => { active := [], inactive := e :: rest, y := e.y1, queue := [] }

/-- src/render/tesselate.rs, tesselate_shape: build the edges from the
points, drop horizontal edges, and initialize the sweep state. -/
def tesselate_shape (pts : List Pointfix) : Trapezoids :=
  edges_to_trapezoids ((pointsToEdges pts).filter (fun e => decide (e.y1 ≠ e.y2)))

/-- src/render/tesselate.rs, the loop of Iterator::fold for Trapezoids:
run populate_queue until it returns false.  Fuel-indexed; none means the
fuel ran out (or a populate_queue panic). -/
def runPopulate : ℕ → Trapezoids → Option Trapezoids
  | 0, _ => none
  | f + 1, s =>
      match populate_queue s with
      | none => none
      | some (false, s') => some s'
      | some (true, s') => runPopulate f s'

/-- src/render/tesselate.rs, Trapezoids::fold instantiated with list
construction: populate the queue to exhaustion, then drain it.
Fuel-indexed; none means the fuel ran out. -/
def foldTraps (f : ℕ) (s : Trapezoids) : Option (List Trapezoid) :=
  (runPopulate f s).map (fun s' => s'.queue)

/-- src/render/tesselate.rs, repeated calls of Trapezoids::next until it
returns None, collecting every yielded trapezoid.  Each queue pop and
each populate_queue cycle consumes one unit of fuel; none means the fuel
ran out (or a populate_queue panic). -/
def pullAll : ℕ → Trapezoids → Option (List Trapezoid)
  | 0, _ => none
  | f + 1, s =>
      match s.queue with
      | t :: rest => (pullAll f { s with queue := rest }).map (fun l => t :: l)
      | [] =>
          match populate_queue s with
          | none => none
          | some (false, _) => some []
          | some (true, s') => pullAll f s'

/-- src/render/tesselate.rs, exactly n successful calls of
Trapezoids::next: returns the n trapezoids yielded, none if the fuel
runs out, the iterator ends, or populate_queue panics before the n-th. -/
def drainN : ℕ → ℕ → Trapezoids → Option (List Trapezoid)
  | _, 0, _ => some []
  | 0, _ + 1, _ => none
  | f + 1, n + 1, s =>
      match s.queue with
      | t :: rest => (drainN f n { s with queue := rest }).map (fun l => t :: l)
      | [] =>
          match populate_queue s with
          | some (true, s') => drainN f (n + 1) s'
          | _ => none

/-- src/display/output.rs, str_to_key: build a key of EXT_KEY_SIZE bytes
by copying s.as_bytes()[..EXT_KEY_SIZE].  The constant EXT_KEY_SIZE is
declared in the parent display module, outside the provided sources, so
it is taken as the parameter k.  The slice b[..k] panics (none) when the
name has fewer than k bytes; otherwise copy_from_slice fills the key
with the first k bytes. -/
def str_to_key (k : ℕ) (b : List ℕ) : Option (List ℕ) :=
  if k ≤ b.length then some (b.take k) else none

/-! Concrete inputs used by the theorems. -/

/-- The rectangle input of the spec: corner points
(0,0), (10,0), (10,10), (0,10) in fixed-point units. -/
def rectPts : List Pointfix := [⟨0, 0⟩, ⟨10, 0⟩, ⟨10, 10⟩, ⟨0, 10⟩]

/-- The single trapezoid the rectangle input decomposes into. -/
def rectTrap : Trapezoid :=
  { top := 0, bottom := 10,
    left := { p1 := ⟨0, 0⟩, p2 := ⟨0, 10⟩ },
    right := { p1 := ⟨10, 0⟩, p2 := ⟨10, 10⟩ } }

/-- A closed contour whose two non-horizontal edges, (0,0)-(100,10) and
(45,0)-(55,10), cross at the exact fixed-point coordinate y = 5 (both
lines pass x = 50 there).  The two horizontal connector segments are
filtered out, so the sweep sees exactly the two crossing edges. -/
def stallPts : List Pointfix := [⟨0, 0⟩, ⟨100, 10⟩, ⟨55, 10⟩, ⟨45, 0⟩]

/-- The first of the two crossing edges of stallPts. -/
def stallEdgeA : Edge := ⟨0, 0, 100, 10, 0⟩

/-- The second of the two crossing edges of stallPts. -/
def stallEdgeB : Edge := ⟨45, 0, 55, 10, 0⟩

/-- The first trapezoid the sweep emits on stallPts: its bottom (-4) is
above its top (0). -/
def stallTrap1 : Trapezoid :=
  { top := 0, bottom := -4,
    left := { p1 := ⟨0, 0⟩, p2 := ⟨100, 10⟩ },
    right := { p1 := ⟨45, 0⟩, p2 := ⟨55, 10⟩ } }

/-- The zero-height trapezoid the sweep then emits forever on stallPts. -/
def stallTrapZ : Trapezoid :=
  { top := -4, bottom := -4,
    left := { p1 := ⟨0, 0⟩, p2 := ⟨100, 10⟩ },
    right := { p1 := ⟨45, 0⟩, p2 := ⟨55, 10⟩ } }

/-- The active list after the first populate_queue cycle on stallPts. -/
def stallActive1 : List Edge := [⟨0, 0, 100, 10, 0⟩, ⟨45, 0, 55, 10, 45⟩]

/-- The active list from the second populate_queue cycle on, a fixed
point of the cycle at scan position -4. -/
def stallActive2 : List Edge := [⟨0, 0, 100, 10, -40⟩, ⟨45, 0, 55, 10, 41⟩]

/-- The full engine state after the first populate_queue cycle on
stallPts. -/
def stallS1 : Trapezoids :=
  { active := stallActive1, inactive := [], y := -4, queue := [stallTrap1] }

/-- The bytes of the extension name GLX, which the provided
src/display/output.rs itself passes to str_to_key. -/
def glxBytes : List ℕ := [71, 76, 88]

/-- A degenerate all-horizontal contour. -/
def horizPts : List Pointfix := [⟨0, 0⟩, ⟨5, 0⟩, ⟨9, 0⟩]

/-! Definitions that follow the spec's words, used as comparison targets
for claims that contrast the code with the specified behaviour. -/

/-- Follows the spec's words (§4.3 step 5b): the fixed-point y-coordinate
of the line intersection of the two edges, i.e. the solution of
m1 y + b1 = m2 y + b2, which is (b2 - b1) / (m1 - m2), converted to
fixed point. -/
def spec_intersect_y (e other : Edge) : Fixed :=
  double_to_fixed
    ((other.x_intercept - e.x_intercept) / (e.inverse_slope - other.inverse_slope))

/-- Follows the spec's words (§4.2): the closing edge emitted after the
source is exhausted, from the last point back to the first when the two
differ, and nothing when they are equal or there are no points. -/
def spec_closing : List Pointfix → List Edge
  | [] => []
  | p :: rest =>
      if p = List.getLastD rest p then [] else [Edge.from_points (List.getLastD rest p) p]

/-- Follows the spec's words (§4.2): one edge per consecutive pair of
points, followed by the closing edge; 0 or 1 points give no edges. -/
def spec_edges (pts : List Pointfix) : List Edge :=
  List.zipWith Edge.from_points pts pts.tail ++ spec_closing pts

/-! Helper lemmas. -/

lemma length_insertByCX (e : Edge) (l : List Edge) :
    (insertByCX e l).length = l.length + 1 := by
  induction l with
  | nil => rfl
  | cons f rest ih =>
      by_cases h : edgeLeCX e f = true <;> simp [insertByCX, h, ih]

lemma length_sortByCX (l : List Edge) : (sortByCX l).length = l.length := by
  induction l with
  | nil => rfl
  | cons e rest ih => simp [sortByCX, List.foldr] at ih ⊢; rw [length_insertByCX, ih]

/-- stepCore never returns none: past the termination check the
candidate set of the minimum is non-empty, so the .expect in
populate_queue cannot fire. -/
lemma stepCore_isSome (a i : List Edge) (y : Fixed) : (stepCore a i y).isSome = true := by
  by_cases hc : (a.isEmpty && i.isEmpty) = true
  · simp [stepCore, hc]
  · rw [stepCore, if_neg hc]
    simp only []
    set act := sortByCX ((a ++ i.takeWhile (fun e => decide (e.y1 ≤ y))).map
      (fun e => e.compute_x y)) with hact
    set inact := i.dropWhile (fun e => decide (e.y1 ≤ y)) with hinact
    have hcands : act.map (fun e => e.y2) ++ intersectCands act
        ++ (inact.head?.map (fun e => e.y1)).toList ≠ [] := by
      intro hnil
      rw [List.append_eq_nil, List.append_eq_nil] at hnil
      obtain ⟨⟨h1, _⟩, h3⟩ := hnil
      rw [List.map_eq_nil_iff] at h1
      have hlen := length_sortByCX ((a ++ i.takeWhile (fun e => decide (e.y1 ≤ y))).map
        (fun e => e.compute_x y))
      rw [← hact, h1] at hlen
      simp only [List.length_nil, List.length_map, List.length_append] at hlen
      have ha : a = [] := by
        cases a with
        | nil => rfl
        | cons x xs => rw [List.length_cons] at hlen; exfalso; omega
      have htw : i.takeWhile (fun e => decide (e.y1 ≤ y)) = [] := by
        cases htw' : i.takeWhile (fun e => decide (e.y1 ≤ y)) with
        | nil => rfl
        | cons x xs => rw [ha, htw'] at hlen; exact absurd hlen (by simp)
      have hi : i ≠ [] := by
        intro hi'
        rw [ha, hi'] at hc
        exact hc rfl
      have hdw : inact = i := by
        have h2 := List.takeWhile_append_dropWhile (p := fun e => decide (e.y1 ≤ y)) (l := i)
        rw [htw] at h2
        simpa [hinact] using h2
      rw [hdw] at h3
      cases i with
      | nil => exact hi rfl
      | cons x xs => simp at h3
    cases hmin : (act.map (fun e => e.y2) ++ intersectCands act
        ++ (inact.head?.map (fun e => e.y1)).toList).min? with
    | none => exact absurd (List.min?_eq_none_iff.mp hmin) hcands
    | some ny => simp [hmin]

/-- When populate_queue short-circuits (returns false), it leaves the
non-queue state unchanged and emits nothing. -/
lemma stepCore_false {a i : List Edge} {y : Fixed} {o : StepOut}
    (h : stepCore a i y = some o) (hc : o.cont = false) :
    o = { cont := false, active := a, inactive := i, y := y, emitted := [] } := by
  rw [stepCore] at h
  split at h
  · exact (Option.some.inj h).symm
  · simp only [] at h
    split at h
    · exact Option.noConfusion h
    · have ho := Option.some.inj h
      rw [← ho] at hc
      exact absurd hc (by simp)

/-- Every edge kept in the active list by a true-returning
populate_queue cycle satisfies y2 > next_y (the retain filter). -/
lemma stepCore_true_active {a i : List Edge} {y : Fixed} {o : StepOut}
    (h : stepCore a i y = some o) (hc : o.cont = true) :
    ∀ e ∈ o.active, o.y < e.y2 := by
  rw [stepCore] at h
  split at h
  · have ho := Option.some.inj h
    rw [← ho] at hc
    exact absurd hc (by simp)
  · simp only [] at h
    split at h
    · exact Option.noConfusion h
    · have ho := Option.some.inj h
      subst ho
      intro e he
      simp only [] at he ⊢
      rw [List.mem_filter] at he
      exact of_decide_eq_true he.2

lemma populate_queue_isSome (s : Trapezoids) : (populate_queue s).isSome = true := by
  rw [populate_queue]
  cases h : stepCore s.active s.inactive s.y with
  | none =>
      have h2 := stepCore_isSome s.active s.inactive s.y
      rw [h] at h2
      exact absurd h2 (by simp)
  | some o => rfl

lemma populate_queue_true_active {s s' : Trapezoids}
    (h : populate_queue s = some (true, s')) : ∀ e ∈ s'.active, s'.y < e.y2 := by
  rw [populate_queue] at h
  cases hs : stepCore s.active s.inactive s.y with
  | none => rw [hs] at h; exact Option.noConfusion h
  | some o =>
      rw [hs] at h
      have h2 := Option.some.inj h
      have hcont : o.cont = true := congrArg Prod.fst h2
      have hsnd : Trapezoids.mk o.active o.inactive o.y (s.queue ++ o.emitted) = s' :=
        congrArg Prod.snd h2
      intro e he
      rw [← hsnd] at he ⊢
      exact stepCore_true_active hs hcont e he

lemma populate_queue_false_queue {s s' : Trapezoids}
    (h : populate_queue s = some (false, s')) : s'.queue = s.queue := by
  rw [populate_queue] at h
  cases hs : stepCore s.active s.inactive s.y with
  | none => rw [hs] at h; exact Option.noConfusion h
  | some o =>
      rw [hs] at h
      have h2 := Option.some.inj h
      have hcont : o.cont = false := congrArg Prod.fst h2
      have hsnd : Trapezoids.mk o.active o.inactive o.y (s.queue ++ o.emitted) = s' :=
        congrArg Prod.snd h2
      have ho := stepCore_false hs hcont
      rw [← hsnd, ho]
      simp

/-- The queue only collects output: running populate_queue cycles on a
state with queue q gives the same run as on the queue-cleared state,
with q prepended to the final queue. -/
lemma runPopulate_setQueue (f : ℕ) (a i : List Edge) (y : Fixed) (q : List Trapezoid) :
    runPopulate f ⟨a, i, y, q⟩ =
      (runPopulate f ⟨a, i, y, []⟩).map
        (fun s' => ⟨s'.active, s'.inactive, s'.y, q ++ s'.queue⟩) := by
  induction f generalizing a i y q with
  | zero => rfl
  | succ f ih =>
      rw [runPopulate, runPopulate]
      cases hs : stepCore a i y with
      | none => simp [populate_queue, hs]
      | some o =>
          cases hc : o.cont with
          | false =>
              simp only [populate_queue, hs, hc]
              simp
          | true =>
              simp only [populate_queue, hs, hc]
              rw [ih (q := q ++ o.emitted), ih (q := [] ++ o.emitted)]
              cases hr : runPopulate f ⟨o.active, o.inactive, o.y, []⟩ with
              | none => rfl
              | some s' => simp

lemma runPopulate_succ {f : ℕ} {s s' : Trapezoids}
    (h : runPopulate f s = some s') : runPopulate (f + 1) s = some s' := by
  induction f generalizing s with
  | zero => exact Option.noConfusion h
  | succ f ih =>
      rw [runPopulate] at h
      rw [runPopulate]
      cases hp : populate_queue s with
      | none => rw [hp] at h; exact Option.noConfusion h
      | some bs =>
          obtain ⟨b, s''⟩ := bs
          rw [hp] at h
          cases b with
          | false => exact h
          | true => exact ih h

lemma runPopulate_mono {f g : ℕ} {s s' : Trapezoids} (hfg : f ≤ g)
    (h : runPopulate f s = some s') : runPopulate g s = some s' := by
  induction hfg with
  | refl => exact h
  | step _ ih => exact runPopulate_succ ih

lemma pullAll_cons (f : ℕ) (a i : List Edge) (y : Fixed) (t : Trapezoid)
    (q : List Trapezoid) :
    pullAll (f + 1) ⟨a, i, y, t :: q⟩ =
      (pullAll f ⟨a, i, y, q⟩).map (fun l => t :: l) := rfl

lemma pullAll_nil_eq (f : ℕ) (a i : List Edge) (y : Fixed) :
    pullAll (f + 1) ⟨a, i, y, []⟩ =
      match populate_queue ⟨a, i, y, []⟩ with
      | none => none
      | some (false, _) => some []
      | some (true, s') => pullAll f s' := rfl

lemma pullAll_succ {f : ℕ} {s : Trapezoids} {l : List Trapezoid}
    (h : pullAll f s = some l) : pullAll (f + 1) s = some l := by
  induction f generalizing s l with
  | zero => exact Option.noConfusion h
  | succ f ih =>
      obtain ⟨a, i, y, q⟩ := s
      cases q with
      | cons t rest =>
          rw [pullAll_cons] at h
          rw [pullAll_cons]
          obtain ⟨l', hp, rfl⟩ := Option.map_eq_some'.mp h
          rw [ih hp]
          rfl
      | nil =>
          rw [pullAll_nil_eq] at h
          rw [pullAll_nil_eq]
          cases hp : populate_queue ⟨a, i, y, []⟩ with
          | none => rw [hp] at h; exact Option.noConfusion h
          | some bs =>
              obtain ⟨b, s''⟩ := bs
              rw [hp] at h
              cases b with
              | false => exact h
              | true => exact ih h

lemma pullAll_mono {f g : ℕ} {s : Trapezoids} {l : List Trapezoid} (hfg : f ≤ g)
    (h : pullAll f s = some l) : pullAll g s = some l := by
  induction hfg with
  | refl => exact h
  | step _ ih => exact pullAll_succ ih

/-- A terminating bulk run on any state splits as the starting queue
followed by the output of the run from the queue-cleared state. -/
lemma foldTraps_queue_split {f : ℕ} {a i : List Edge} {y : Fixed}
    {q : List Trapezoid} {l : List Trapezoid}
    (h : foldTraps f ⟨a, i, y, q⟩ = some l) :
    ∃ s0, runPopulate f ⟨a, i, y, []⟩ = some s0 ∧ l = q ++ s0.queue := by
  unfold foldTraps at h
  rw [runPopulate_setQueue] at h
  cases hr : runPopulate f ⟨a, i, y, []⟩ with
  | none => rw [hr] at h; exact Option.noConfusion h
  | some s0 =>
      rw [hr] at h
      exact ⟨s0, rfl, (Option.some.inj h).symm⟩

/-- The iterator loop of PointsToEdges after the first point has been
remembered: it emits one edge per consecutive pair and then the closing
edge back to the remembered first point when it differs from the last. -/
lemma pointsToEdgesAux_some (rest : List Pointfix) (f l : Pointfix) :
    pointsToEdgesAux rest (some f) (some l) =
      List.zipWith Edge.from_points (l :: rest) rest ++
        (if f = List.getLastD rest l then []
         else [Edge.from_points (List.getLastD rest l) f]) := by
  induction rest generalizing l with
  | nil => rfl
  | cons q rest ih =>
      simp only [pointsToEdgesAux]
      rw [ih, List.getLastD_cons]
      rfl

lemma drainN_zero (f : ℕ) (s : Trapezoids) : drainN f 0 s = some [] := by
  cases f <;> rfl

lemma drainN_cons (f n : ℕ) (a i : List Edge) (y : Fixed) (t : Trapezoid)
    (q : List Trapezoid) :
    drainN (f + 1) (n + 1) ⟨a, i, y, t :: q⟩ =
      (drainN f n ⟨a, i, y, q⟩).map (fun l => t :: l) := rfl

lemma drainN_nil (f n : ℕ) (a i : List Edge) (y : Fixed) :
    drainN (f + 1) (n + 1) ⟨a, i, y, []⟩ =
      match populate_queue ⟨a, i, y, []⟩ with
      | some (true, s') => drainN f (n + 1) s'
      | _ => none := rfl

/-- populate_queue in terms of stepCore, for an arbitrary starting
queue. -/
lemma populate_queue_expand (a i : List Edge) (y : Fixed) (q : List Trapezoid) :
    populate_queue ⟨a, i, y, q⟩ =
      (stepCore a i y).map
        (fun o => (o.cont, ⟨o.active, o.inactive, o.y, q ++ o.emitted⟩)) := by
  cases h : stepCore a i y with
  | none => rw [populate_queue, h]; rfl
  | some o => rw [populate_queue, h]; rfl

/-- The first populate_queue cycle on the crossing-edges input. -/
lemma stall_first_step : populate_queue (tesselate_shape stallPts) = some (true, stallS1) := by
  with_unfolding_all rfl

/-- One cycle at the state reached after the first one: the (sign-flipped)
intersection candidate pins the scan position at -4. -/
lemma stall_stepCore_1 : stepCore stallActive1 [] (-4) =
    some ⟨true, stallActive2, [], -4, [stallTrapZ]⟩ := by
  with_unfolding_all rfl

/-- The cycle fixed point of stepCore at scan position -4. -/
lemma stall_stepCore_2 : stepCore stallActive2 [] (-4) =
    some ⟨true, stallActive2, [], -4, [stallTrapZ]⟩ := by
  with_unfolding_all rfl

/-- From the state reached after the first cycle, one more cycle leads
to the cycle fixed point, emitting one zero-height trapezoid. -/
lemma stall_cycle_enter (q : List Trapezoid) :
    populate_queue ⟨stallActive1, [], -4, q⟩ =
      some (true, ⟨stallActive2, [], -4, q ++ [stallTrapZ]⟩) := by
  rw [populate_queue_expand, stall_stepCore_1]
  rfl

/-- The cycle fixed point: populate_queue leaves the active list, the
inactive list and the scan position unchanged and emits one more
zero-height trapezoid, forever. -/
lemma stall_cycle_step (q : List Trapezoid) :
    populate_queue ⟨stallActive2, [], -4, q⟩ =
      some (true, ⟨stallActive2, [], -4, q ++ [stallTrapZ]⟩) := by
  rw [populate_queue_expand, stall_stepCore_2]
  rfl

/-- From the cycle fixed point, any number of trapezoids can be pulled. -/
lemma stall_cycle_drain : ∀ (n : ℕ) (q : List Trapezoid),
    ∃ f l, drainN f n ⟨stallActive2, [], -4, q⟩ = some l ∧ l.length = n := by
  intro n
  induction n with
  | zero => exact fun q => ⟨0, [], drainN_zero 0 _, rfl⟩
  | succ n ih =>
      intro q
      cases q with
      | cons t rest =>
          obtain ⟨f, l, h, hl⟩ := ih rest
          refine ⟨f + 1, t :: l, ?_, by simp [hl]⟩
          rw [drainN_cons, h]
          rfl
      | nil =>
          obtain ⟨f, l, h, hl⟩ := ih []
          refine ⟨f + 2, stallTrapZ :: l, ?_, by simp [hl]⟩
          have e1 : drainN (f + 2) (n + 1) ⟨stallActive2, [], -4, []⟩
              = drainN (f + 1) (n + 1) ⟨stallActive2, [], -4, [stallTrapZ]⟩ := by
            rw [drainN_nil, stall_cycle_step]
            rfl
          rw [e1, drainN_cons, h]
          rfl

/-- The initial sweep state built from stallPts: the two horizontal
connector segments are filtered out and the two crossing edges remain,
sorted by (y1, x1). -/
lemma stall_shape :
    tesselate_shape stallPts = ⟨[], [stallEdgeA, stallEdgeB], 0, []⟩ := rfl

/-- The first cycle on the stall input in stepCore form: both edges
activate at y = 0 and the (sign-flipped) intersection candidate -4 wins
the minimum against the endpoint candidates 10 and 10. -/
lemma stall_stepCore_0 : stepCore [] [stallEdgeA, stallEdgeB] 0 =
    some ⟨true, stallActive1, [], -4, [stallTrap1]⟩ := by
  with_unfolding_all rfl

/-- The full bulk run on the rectangle input: one cycle emits the single
trapezoid, the next cycle reports exhaustion. -/
lemma rect_run : runPopulate 2 (tesselate_shape rectPts) = some ⟨[], [], 10, [rectTrap]⟩ := by
  with_unfolding_all rfl

/-- The full incremental run on the rectangle input. -/
lemma rect_pull4 : pullAll 4 (tesselate_shape rectPts) = some [rectTrap] := by
  with_unfolding_all rfl

/-! The claims. -/

/-- C1: for every sweep-engine state (hence for every input edge set),
whenever incremental pull (repeated next() calls, pullAll) and eager
bulk consumption (populate_queue to exhaustion then drain, foldTraps)
both complete, they produce the same ordered trapezoid sequence. -/
theorem trapezoids_next_fold_agree (s : Trapezoids) (f g : ℕ) (l1 l2 : List Trapezoid)
    (hf : foldTraps f s = some l1) (hg : pullAll g s = some l2) : l2 = l1 := by
  induction g generalizing s f l1 l2 with
  | zero => exact Option.noConfusion hg
  | succ g ih =>
      obtain ⟨a, i, y, q⟩ := s
      cases q with
      | cons t rest =>
          rw [pullAll_cons] at hg
          obtain ⟨l2', hg', rfl⟩ := Option.map_eq_some'.mp hg
          obtain ⟨s0, hr, rfl⟩ := foldTraps_queue_split hf
          have hf' : foldTraps f ⟨a, i, y, rest⟩ = some (rest ++ s0.queue) := by
            unfold foldTraps
            rw [runPopulate_setQueue, hr]
            rfl
          rw [ih ⟨a, i, y, rest⟩ f (rest ++ s0.queue) l2' hf' hg']
          rfl
      | nil =>
          rw [pullAll_nil_eq] at hg
          cases hp : populate_queue ⟨a, i, y, []⟩ with
          | none => rw [hp] at hg; exact Option.noConfusion hg
          | some bs =>
              obtain ⟨b, s'⟩ := bs
              rw [hp] at hg
              cases b with
              | false =>
                  cases f with
                  | zero => exact Option.noConfusion hf
                  | succ fp =>
                      unfold foldTraps at hf
                      rw [runPopulate, hp] at hf
                      have h1 : s'.queue = l1 := Option.some.inj hf
                      have hl2 : l2 = [] := (Option.some.inj hg).symm
                      have hl1 : l1 = [] := by
                        rw [← h1, populate_queue_false_queue hp]
                      rw [hl1, hl2]
              | true =>
                  cases f with
                  | zero => exact Option.noConfusion hf
                  | succ fp =>
                      have hf' : foldTraps fp s' = some l1 := by
                        unfold foldTraps at hf ⊢
                        rw [runPopulate, hp] at hf
                        exact hf
                      exact ih s' fp l1 l2 hf' hg

/-- Witness for C1: on the rectangle input, both consumption modes
terminate with the single expected trapezoid, and the theorem applies. -/
theorem trapezoids_next_fold_agree_witness :
    foldTraps 3 (tesselate_shape rectPts) = some [rectTrap] ∧
    pullAll 5 (tesselate_shape rectPts) = some [rectTrap] ∧
    ([rectTrap] : List Trapezoid) = [rectTrap] := by
  have h1 : foldTraps 3 (tesselate_shape rectPts) = some [rectTrap] := by
    unfold foldTraps
    rw [runPopulate_succ rect_run]
    rfl
  have h2 : pullAll 5 (tesselate_shape rectPts) = some [rectTrap] := pullAll_succ rect_pull4
  exact ⟨h1, h2, trapezoids_next_fold_agree (tesselate_shape rectPts) 3 5
    [rectTrap] [rectTrap] h1 h2⟩

/-- C2 (refuted by the code): on the closed four-point contour
stallPts, the sweep never terminates: for every n there is a fuel
budget under which n successive next() calls all yield a trapezoid, so
the iterator produces unboundedly many trapezoids and next() never
returns None.  The sign error in compute_intersect moves the scan
position backward to -4 and pins it there. -/
theorem stall_input_never_terminates :
    ∀ n : ℕ, ∃ f l, drainN f n (tesselate_shape stallPts) = some l ∧ l.length = n := by
  intro n
  match n with
  | 0 => exact ⟨0, [], drainN_zero 0 _, rfl⟩
  | 1 =>
      refine ⟨2, [stallTrap1], ?_, rfl⟩
      rw [stall_shape, drainN_nil, populate_queue_expand, stall_stepCore_0]
      rfl
  | m + 2 =>
      obtain ⟨f, l, h, hl⟩ := stall_cycle_drain m []
      refine ⟨f + 4, stallTrap1 :: stallTrapZ :: l, ?_, by simp [hl]⟩
      have e1 : drainN (f + 4) (m + 2) (tesselate_shape stallPts)
          = drainN (f + 3) (m + 2) stallS1 := by
        rw [stall_shape, drainN_nil, populate_queue_expand, stall_stepCore_0]
        rfl
      have e2 : drainN (f + 3) (m + 2) stallS1
          = (drainN (f + 2) (m + 1) ⟨stallActive1, [], -4, []⟩).map
              (fun l => stallTrap1 :: l) :=
        drainN_cons (f + 2) (m + 1) stallActive1 [] (-4) stallTrap1 []
      have e3 : drainN (f + 2) (m + 1) ⟨stallActive1, [], -4, []⟩
          = drainN (f + 1) (m + 1) ⟨stallActive2, [], -4, [stallTrapZ]⟩ := by
        rw [drainN_nil, stall_cycle_enter]
        rfl
      have e4 : drainN (f + 1) (m + 1) ⟨stallActive2, [], -4, [stallTrapZ]⟩
          = (drainN f m ⟨stallActive2, [], -4, []⟩).map (fun l => stallTrapZ :: l) :=
        drainN_cons f m stallActive2 [] (-4) stallTrapZ []
      rw [e1, e2, e3, e4, h]
      rfl

/-- C3 (refuted by the code): the very first trapezoid emitted on
stallPts has bottom = -4 strictly below top = 0, so bottom >= top fails
for an emitted trapezoid. -/
theorem stall_emits_negative_height :
    drainN 2 1 (tesselate_shape stallPts) = some [stallTrap1] ∧
    stallTrap1.bottom < stallTrap1.top := by
  constructor
  · rw [stall_shape, drainN_nil, populate_queue_expand, stall_stepCore_0]
    rfl
  · decide

/-- C4 (refuted by the code): the two stall edges genuinely intersect
at fixed-point y = 5 (their lines agree there and their slopes differ),
and the spec's formula gives 5, but compute_intersect as written
divides by (m2 - m1) instead of (m1 - m2) and returns -5, the negated
intersection; consequently the next scan position of the sweep step is
-4 = -5 + 1 rather than the claimed 6 = 5 + 1. -/
theorem compute_intersect_negates_intersection :
    stallEdgeA.lineX (5 / 65536) = stallEdgeB.lineX (5 / 65536) ∧
    stallEdgeA.inverse_slope ≠ stallEdgeB.inverse_slope ∧
    spec_intersect_y stallEdgeA stallEdgeB = 5 ∧
    stallEdgeA.compute_intersect stallEdgeB = -5 ∧
    (stepCore [] [stallEdgeA, stallEdgeB] 0).map StepOut.y = some (-4) ∧
    stallEdgeA.compute_intersect stallEdgeB + 1 ≠ spec_intersect_y stallEdgeA stallEdgeB + 1 := by
  refine ⟨?_, ?_, ?_, ?_, ?_, ?_⟩
  · with_unfolding_all rfl
  · with_unfolding_all decide
  · with_unfolding_all rfl
  · with_unfolding_all rfl
  · rw [stall_stepCore_0]
    rfl
  · with_unfolding_all decide

/-- C5, amended: after every populate_queue cycle that returns true,
every edge left in the active collection satisfies y < y2 (where y is
the updated scan position); the lower half y1 <= y of the claimed
invariant does not hold in general. -/
theorem active_invariant_upper_half (s s' : Trapezoids)
    (h : populate_queue s = some (true, s')) : ∀ e ∈ s'.active, s'.y < e.y2 :=
  populate_queue_true_active h

/-- Witness for the amended C5: on the state reached from stallPts the
retained crossing edge indeed satisfies y < y2. -/
theorem active_invariant_upper_half_witness :
    stallS1.y < (Edge.mk 0 0 100 10 0).y2 :=
  active_invariant_upper_half (tesselate_shape stallPts) stallS1 stall_first_step
    (Edge.mk 0 0 100 10 0) (by decide)

/-- Counterexample for C5 as stated: after the first populate_queue
cycle on stallPts (which returns true), the active edge
(0,0)-(100,10) has y1 = 0 while the scan position has moved backward to
-4, so y1 <= y fails. -/
theorem active_invariant_fails_on_stall :
    populate_queue (tesselate_shape stallPts) = some (true, stallS1) ∧
    ¬ (∀ e ∈ stallS1.active, e.y1 ≤ stallS1.y ∧ stallS1.y < e.y2) := by
  refine ⟨stall_first_step, ?_⟩
  intro hall
  have h1 := (hall (Edge.mk 0 0 100 10 0) (by decide)).1
  exact absurd h1 (by decide)

/-- C6: the rectangle (0,0),(10,0),(10,10),(0,10) decomposes into
exactly one trapezoid with top 0, bottom 10, left side the vertical
segment (0,0)-(0,10) and right side the vertical segment
(10,0)-(10,10), whichever way the output is consumed. -/
theorem rect_yields_one_trapezoid :
    (∀ f, 2 ≤ f → foldTraps f (tesselate_shape rectPts) = some [rectTrap]) ∧
    (∀ g, 4 ≤ g → pullAll g (tesselate_shape rectPts) = some [rectTrap]) := by
  constructor
  · intro f hf
    unfold foldTraps
    rw [runPopulate_mono hf rect_run]
    rfl
  · intro g hg
    exact pullAll_mono hg rect_pull4

/-- Witness for C6 at the smallest fuel budgets. -/
theorem rect_yields_one_trapezoid_witness :
    foldTraps 2 (tesselate_shape rectPts) = some [rectTrap] ∧
    pullAll 4 (tesselate_shape rectPts) = some [rectTrap] :=
  ⟨rect_yields_one_trapezoid.1 2 (by decide), rect_yields_one_trapezoid.2 4 (by decide)⟩

/-- C7: the edge builder emits one edge per consecutive pair of input
points, followed, once the source is exhausted, by a single closing edge
from the last point back to the first when the two differ and by nothing
when they are equal; 0 or 1 points yield no edges. -/
theorem points_to_edges_matches_spec (pts : List Pointfix) :
    pointsToEdges pts = spec_edges pts := by
  cases pts with
  | nil => rfl
  | cons p rest =>
      have h0 : pointsToEdges (p :: rest) = pointsToEdgesAux rest (some p) (some p) := rfl
      rw [h0, pointsToEdgesAux_some]
      rfl

/-- C8: a degenerate input (fewer than 2 points, or one all of whose
segments are horizontal) yields an empty trapezoid sequence under both
consumption modes, and no panic. -/
theorem degenerate_input_yields_empty (pts : List Pointfix) (f : ℕ)
    (hdeg : pts.length ≤ 1 ∨ ∀ e ∈ pointsToEdges pts, e.y1 = e.y2) (hf : 1 ≤ f) :
    foldTraps f (tesselate_shape pts) = some [] ∧
    pullAll f (tesselate_shape pts) = some [] := by
  have hedges : ∀ e ∈ pointsToEdges pts, e.y1 = e.y2 := by
    cases hdeg with
    | inr h => exact h
    | inl h =>
        intro e he
        exfalso
        cases pts with
        | nil => simp [pointsToEdges, pointsToEdgesAux] at he
        | cons p rest =>
            cases rest with
            | nil =>
                rw [show pointsToEdges [p] = pointsToEdgesAux [] (some p) (some p) from rfl]
                  at he
                simp [pointsToEdgesAux] at he
            | cons q rest2 =>
                rw [List.length_cons, List.length_cons] at h
                omega
  have hfilter : (pointsToEdges pts).filter (fun e => decide (e.y1 ≠ e.y2)) = [] := by
    rw [List.filter_eq_nil_iff]
    intro e he
    simp [hedges e he]
  have hstate : tesselate_shape pts = ⟨[], [], 0, []⟩ := by
    unfold tesselate_shape
    rw [hfilter]
    rfl
  rw [hstate]
  cases f with
  | zero => exact absurd hf (by decide)
  | succ fp => exact ⟨rfl, rfl⟩

/-- Witness for C8 on a concrete all-horizontal contour. -/
theorem degenerate_input_yields_empty_witness :
    foldTraps 1 (tesselate_shape horizPts) = some [] ∧
    pullAll 1 (tesselate_shape horizPts) = some [] :=
  degenerate_input_yields_empty horizPts 1 (Or.inr (by decide)) (by decide)

/-- C9 (refuted by the code): str_to_key panics (models as none) on
every extension name shorter than EXT_KEY_SIZE bytes, because it slices
the name's bytes to the full key length instead of truncating; the
claimed total truncation fails for every positive key size. -/
theorem str_to_key_panics_on_short_names (k : ℕ) (b : List ℕ) (h : b.length < k) :
    str_to_key k b = none := by
  unfold str_to_key
  rw [if_neg]
  omega

/-- Witness for C9: the name GLX, which src/display/output.rs itself
passes to str_to_key, has 3 bytes, fewer than a key size of 24. -/
theorem str_to_key_panics_on_short_names_witness : str_to_key 24 glxBytes = none :=
  str_to_key_panics_on_short_names 24 glxBytes (by decide)

/-- C10: populate_queue never panics: for every engine state (reachable
or not), once past the termination check the candidate set of the
minimum computation is non-empty, so the .expect cannot fire. -/
theorem populate_queue_never_panics (s : Trapezoids) :
    (populate_queue s).isSome = true :=
  populate_queue_isSome s

end Breadx
